import Mathlib

/-!
Shallow embedding of the `profil_logger` library
(`profil_logger/logger.py`, `profil_logger/handlers.py`).

Python `datetime.datetime` values are modelled by `Datetime`; the standard
library functions `isoformat`/`fromisoformat` are modelled by executable
renderers/parsers over the canonical naive-datetime grammar they exchange.
-/

namespace Spec2Proof

/-- Model of a Python `datetime.datetime` value (naive, microsecond precision). -/
structure Datetime where
  year : Nat
  month : Nat
  day : Nat
  hour : Nat
  minute : Nat
  second : Nat
  microsecond : Nat
deriving DecidableEq, Repr

/-- Days in a month under the Gregorian leap rule, as Python's `datetime` uses. -/
def daysInMonth (y m : Nat) : Nat :=
  if m = 2 then (if y % 4 = 0 ∧ (y % 100 ≠ 0 ∨ y % 400 = 0) then 29 else 28)
  else if m = 4 ∨ m = 6 ∨ m = 9 ∨ m = 11 then 30
  else 31

/-- The field ranges enforced by the Python `datetime.datetime` constructor. -/
def Datetime.Valid (d : Datetime) : Prop :=
  1 ≤ d.year ∧ d.year ≤ 9999 ∧ 1 ≤ d.month ∧ d.month ≤ 12 ∧ 1 ≤ d.day ∧
  d.day ≤ daysInMonth d.year d.month ∧ d.hour ≤ 23 ∧ d.minute ≤ 59 ∧
  d.second ≤ 59 ∧ d.microsecond ≤ 999999

instance : DecidablePred Datetime.Valid := fun d => by
  unfold Datetime.Valid; infer_instance

/-- The character of a decimal digit. -/
def digitChar (n : Nat) : Char := Char.ofNat (48 + n)

/-- Numeric value of a decimal digit character. -/
def digitVal (c : Char) : Nat := c.toNat - 48

/-- Zero-padded fixed-width decimal rendering, most significant digit first
(the `%04d`-style field layout of `datetime.isoformat`). -/
def renderNat : Nat → Nat → List Char
  | 0, _ => []
  | w + 1, n => renderNat w (n / 10) ++ [digitChar (n % 10)]

/-- Value of a digit string, most significant digit first. -/
def digitsVal (s : List Char) : Nat := s.foldl (fun a c => 10 * a + digitVal c) 0

/-- Consume exactly `w` decimal digits from the front of `s`. -/
def takeNat (w : Nat) (s : List Char) : Option (Nat × List Char) :=
  if (s.take w).length = w ∧ (s.take w).all Char.isDigit then
    some (digitsVal (s.take w), s.drop w)
  else none

/-- Consume one expected character from the front of the input. -/
def expectChar (c : Char) : List Char → Option (List Char)
  | [] => none
  | x :: rest => if x = c then some rest else none

/-- Model of `datetime.isoformat()` on naive values: `YYYY-MM-DDTHH:MM:SS`,
followed by `.ffffff` exactly when the microsecond field is nonzero. -/
def Datetime.isoChars (d : Datetime) : List Char :=
  renderNat 4 d.year ++ '-' :: (renderNat 2 d.month ++ '-' :: (renderNat 2 d.day ++
  'T' :: (renderNat 2 d.hour ++ ':' :: (renderNat 2 d.minute ++ ':' :: (renderNat 2 d.second ++
  (if d.microsecond = 0 then [] else '.' :: renderNat 6 d.microsecond))))))

/-- Model of `datetime.isoformat()` as a Lean string. -/
def Datetime.isoformat (d : Datetime) : String := ⟨d.isoChars⟩

/-- Model of `datetime.datetime.fromisoformat`, restricted to the grammar that
`Datetime.isoformat` emits; any other input is rejected, as CPython raises
`ValueError`. Field ranges are validated as the CPython constructor does. -/
def fromisoChars (s : List Char) : Option Datetime := do
  let (y, s) ← takeNat 4 s
  let s ← expectChar '-' s
  let (mo, s) ← takeNat 2 s
  let s ← expectChar '-' s
  let (dy, s) ← takeNat 2 s
  let s ← expectChar 'T' s
  let (h, s) ← takeNat 2 s
  let s ← expectChar ':' s
  let (mi, s) ← takeNat 2 s
  let s ← expectChar ':' s
  let (sec, s) ← takeNat 2 s
  let us ← (match s with
    | [] => some 0
    | c :: rest =>
      if c = '.' then
        (match takeNat 6 rest with
          | some (us, r) => if r = [] then some us else none
          | none => none)
      else none)
  let d : Datetime := ⟨y, mo, dy, h, mi, sec, us⟩
  if d.Valid then some d else none

/-- Model of `datetime.datetime.fromisoformat` on Lean strings. -/
def Datetime.fromisoformat (s : String) : Option Datetime := fromisoChars s.data

/-- The five recognized log level names, in declaration order
(`get_args(LogLevel)` in `logger.py`). -/
def logLevels : List String := ["DEBUG", "INFO", "WARNING", "ERROR", "CRITICAL"]

/-- Model of `LogEntry` (`logger.py`): a timestamp, a level and a message. -/
structure LogEntry where
  date : Datetime
  level : String
  message : String
deriving DecidableEq, Repr

/-- Model of the `LogEntry` constructor validation: the date is a datetime and
the message a string by typing; the level must be one of the five recognized
names, otherwise `ValueError` (`none`). -/
def LogEntry.mk? (date : Datetime) (level message : String) : Option LogEntry :=
  if level ∈ logLevels then some ⟨date, level, message⟩ else none

/-- Model of the string-keyed Python dict records exchanged with the backends. -/
abbrev Dict := List (String × String)

/-- Model of `LogEntry.to_dict`. -/
def LogEntry.to_dict (e : LogEntry) : Dict :=
  [("date", e.date.isoformat), ("level", e.level), ("message", e.message)]

/-- Model of `LogEntry.from_dict`: requires the keys `date`, `level`, `message`,
parses the date as ISO-8601, then applies the constructor validation; any
failure is the Python `ValueError` (`none`). -/
def LogEntry.from_dict (data : Dict) : Option LogEntry :=
  match data.lookup "date", data.lookup "level", data.lookup "message" with
  | some ds, some lv, some ms =>
    (match Datetime.fromisoformat ds with
      | some d => LogEntry.mk? d lv ms
      | none => none)
  | _, _, _ => none

/-- The `_LOG_LEVELS` rank dict of `ProfilLogger` (`logger.py`). -/
def LOG_LEVELS : List (String × Int) :=
  [("DEBUG", 0), ("INFO", 1), ("WARNING", 2), ("ERROR", 3), ("CRITICAL", 4)]

/-- Model of `self._LOG_LEVELS.get(key, default)`. -/
def rankOr (level : String) (dflt : Int) : Int := (LOG_LEVELS.lookup level).getD dflt

/-- Model of `ProfilLogger._should_log`. -/
def should_log (threshold level : String) : Bool :=
  decide (rankOr level (-1) ≥ rankOr threshold 0)

/-- A handler's `write` method, modelled by its observable result on an entry:
success, or a raised exception carrying a message. -/
abbrev HandlerWrite := LogEntry → Except String Unit

/-- Model of the fan-out loop of `ProfilLogger._log`: each handler's `write` is
invoked in order inside `try/except`; a raised exception is caught (its message
recorded) and the loop continues. Returns the entry passed at each handler
position, and the caught exception messages. -/
def fanOut : List HandlerWrite → LogEntry → List LogEntry × List String
  | [], _ => ([], [])
  | w :: rest, e =>
    match w e, fanOut rest e with
    | Except.ok _, (inv, caught) => (e :: inv, caught)
    | Except.error msg, (inv, caught) => (e :: inv, msg :: caught)

/-- Observable outcome of one `ProfilLogger._log` call. -/
structure LogOutcome where
  entry : Option LogEntry
  invoked : List LogEntry
  caught : List String
deriving Repr

/-- Model of `ProfilLogger._log`: the level gate, then `LogEntry` construction
(whose `ValueError` would propagate to the caller), then best-effort fan-out
over the configured handlers. -/
def ProfilLogger.log (threshold : String) (ws : List HandlerWrite)
    (level message : String) (now : Datetime) : Except String LogOutcome :=
  if should_log threshold level then
    match LogEntry.mk? now level message with
    | some e => Except.ok ⟨some e, (fanOut ws e).1, (fanOut ws e).2⟩
    | none => Except.error "Invalid log level"
  else Except.ok ⟨none, [], []⟩

/-- One step of the grouping loop in `ProfilLoggerReader.groupby_level`
(`if log.level in grouped_logs: grouped_logs[log.level].append(log)`). -/
def addToGroups (groups : List (String × List LogEntry)) (e : LogEntry) :
    List (String × List LogEntry) :=
  if (groups.lookup e.level).isSome then
    groups.map (fun p => if p.1 = e.level then (p.1, p.2 ++ [e]) else p)
  else groups

/-- Model of `ProfilLoggerReader.groupby_level` on the retrieved entries: an
insertion-ordered dict keyed by the five level names, each bucket filled by the
grouping loop in input order. -/
def groupby_level (logs : List LogEntry) : List (String × List LogEntry) :=
  logs.foldl addToGroups (logLevels.map (fun lv => (lv, [])))

/-- Lexicographic order on equal-length numeric field lists. -/
def lexLe : List Nat → List Nat → Bool
  | [], _ => true
  | _ :: _, [] => false
  | a :: as, b :: bs => if a < b then true else if b < a then false else lexLe as bs

/-- The comparison tuple of a Python `datetime`. -/
def Datetime.fields (d : Datetime) : List Nat :=
  [d.year, d.month, d.day, d.hour, d.minute, d.second, d.microsecond]

/-- Python `datetime` comparison `a <= b`: lexicographic on the fields. -/
def Datetime.le (a b : Datetime) : Bool := lexLe a.fields b.fields

/-- Model of `ProfilLoggerReader.sort_by_date` on the retrieved entries:
Python's stable `sorted` with key `log.date` and `reverse = not ascending`. -/
def sort_by_date (ascending : Bool) (logs : List LogEntry) : List LogEntry :=
  if ascending then logs.mergeSort (fun a b => Datetime.le a.date b.date)
  else logs.mergeSort (fun a b => Datetime.le b.date a.date)

/-- The characters removed by Python `str.strip()`: CPython's Unicode
whitespace table (U+0009..U+000D, U+001C..U+001F, space, U+0085, U+00A0,
U+1680, U+2000..U+200A, U+2028, U+2029, U+202F, U+205F, U+3000). -/
def isPyWS (c : Char) : Bool :=
  decide ((0x09 ≤ c.toNat ∧ c.toNat ≤ 0x0D) ∨ (0x1C ≤ c.toNat ∧ c.toNat ≤ 0x1F) ∨
    c.toNat = 0x20 ∨ c.toNat = 0x85 ∨ c.toNat = 0xA0 ∨ c.toNat = 0x1680 ∨
    (0x2000 ≤ c.toNat ∧ c.toNat ≤ 0x200A) ∨ c.toNat = 0x2028 ∨ c.toNat = 0x2029 ∨
    c.toNat = 0x202F ∨ c.toNat = 0x205F ∨ c.toNat = 0x3000)

/-- Model of Python `str.strip()`. -/
def pyStrip (s : List Char) : List Char :=
  ((s.dropWhile isPyWS).reverse.dropWhile isPyWS).reverse

/-- Split at the first occurrence of `sep`, if any. -/
def splitFirst (sep : Char) : List Char → Option (List Char × List Char)
  | [] => none
  | c :: rest =>
    if c = sep then some ([], rest)
    else
      match splitFirst sep rest with
      | some (a, b) => some (c :: a, b)
      | none => none

/-- Model of Python `s.split(" ", 2)`: split on the first two single-space
separators, keeping the remainder whole. -/
def pySplit2 (s : List Char) : List (List Char) :=
  match splitFirst ' ' s with
  | none => [s]
  | some (a, rest) =>
    match splitFirst ' ' rest with
    | none => [a, rest]
    | some (b, rest2) => [a, b, rest2]

/-- Model of `FileHandler.retrieve_all_logs_file` over the file's lines: each
line is stripped and split on its first two spaces; lines with exactly three
parts become `{date, level, message}` dicts with the bracket and colon
decoration stripped; any other line is skipped. -/
def retrieve_all_logs_file : List String → List Dict
  | [] => []
  | line :: rest =>
    match pySplit2 (pyStrip line.data) with
    | [p0, p1, p2] =>
      [("date", ⟨(p0.drop 1).dropLast⟩), ("level", ⟨p1.dropLast⟩), ("message", ⟨p2⟩)] ::
        retrieve_all_logs_file rest
    | _ => retrieve_all_logs_file rest

/-- The line `FileHandler.write` appends for an entry:
`"[<iso>] <LEVEL>: <message>"` followed by a newline. -/
def FileHandler.writeLine (e : LogEntry) : String :=
  ⟨'[' :: (e.date.isoChars ++ ']' :: ' ' :: (e.level.data ++ ':' :: ' ' ::
    (e.message.data ++ ['\n'])))⟩

/-- Messages whose written plain-text line survives stripping unchanged:
nonempty, no line-break character, and not ending in whitespace. -/
def RoundTrippable (m : String) : Prop :=
  m.data ≠ [] ∧ (∀ c ∈ m.data, c ≠ '\n' ∧ c ≠ '\r') ∧
  isPyWS (m.data.getLastD ' ') = false

instance : DecidablePred RoundTrippable := fun m => by
  unfold RoundTrippable; infer_instance

/-- The `_ALLOWED_TABLE_NAMES` allow-list of `SQLLiteHandler` (`handlers.py`). -/
def ALLOWED_TABLE_NAMES : List String := ["logs", "other_logs", "debug_logs", "app_events"]

/-- The configured state of a constructed `SQLLiteHandler`. -/
structure SQLLiteHandler where
  db_path : String
  table_name : String
deriving DecidableEq, Repr

/-- Model of `SQLLiteHandler.__init__`: the table-name check precedes all I/O;
on success the constructor performs its directory and table bootstrapping.
Returns the I/O actions performed, alongside the result or the raised
`ValueError`. -/
def SQLLiteHandler.init (db_path table_name : String) :
    List String × Except String SQLLiteHandler :=
  if table_name ∈ ALLOWED_TABLE_NAMES then
    (["makedirs", "create_table_if_not_exists"], Except.ok ⟨db_path, table_name⟩)
  else
    ([], Except.error ("Table name is not allowed for security reasons: " ++ table_name))

/-- Model of the conversion list comprehension in
`ProfilLoggerReader._get_all_logs_from_handler`: every retrieved dict goes
through `LogEntry.from_dict`; the first `ValueError` aborts the whole
comprehension. -/
def fromDictAll : List Dict → Except String (List LogEntry)
  | [] => Except.ok []
  | d :: rest =>
    match LogEntry.from_dict d with
    | some e =>
      (match fromDictAll rest with
        | Except.ok es => Except.ok (e :: es)
        | Except.error msg => Except.error msg)
    | none => Except.error "Invalid date format"

/-- Model of `ProfilLoggerReader._get_all_logs_from_handler` bound to a
`FileHandler`: the only supported retrieve method is `retrieve_all_logs_file`;
its dicts are converted by one comprehension inside `try/except`; on an
exception a warning is printed and the method loop moves on, and with no
methods left the reader returns the empty list. -/
def reader_get_all_logs_file (lines : List String) : List LogEntry :=
  match fromDictAll (retrieve_all_logs_file lines) with
  | Except.ok es => es
  | Except.error _ => []

/-! ### Theorems -/

theorem digitVal_digitChar : ∀ n, n < 10 → digitVal (digitChar n) = n := by decide

theorem isDigit_digitChar : ∀ n, n < 10 → (digitChar n).isDigit = true := by decide

@[simp] theorem renderNat_length (w : Nat) : ∀ n, (renderNat w n).length = w := by
  induction w with
  | zero => intro n; rfl
  | succ w ih => intro n; simp [renderNat, ih]

theorem isDigit_of_mem_renderNat (w : Nat) :
    ∀ n c, c ∈ renderNat w n → c.isDigit = true := by
  induction w with
  | zero => intro n c hc; simp [renderNat] at hc
  | succ w ih =>
    intro n c hc
    simp only [renderNat, List.mem_append, List.mem_singleton] at hc
    rcases hc with hc | rfl
    · exact ih _ _ hc
    · exact isDigit_digitChar _ (Nat.mod_lt _ (by omega))

theorem foldl_renderNat (w : Nat) : ∀ n a,
    (renderNat w n).foldl (fun a c => 10 * a + digitVal c) a = a * 10 ^ w + n % 10 ^ w := by
  induction w with
  | zero => intro n a; simp [renderNat, Nat.mod_one]
  | succ w ih =>
    intro n a
    rw [renderNat, List.foldl_append, ih]
    simp only [List.foldl_cons, List.foldl_nil]
    rw [digitVal_digitChar _ (Nat.mod_lt _ (by omega))]
    have h2 : n % 10 ^ (w + 1) = n % 10 + 10 * (n / 10 % 10 ^ w) := by
      rw [pow_succ, mul_comm (10 ^ w) 10, Nat.mod_mul]
    rw [h2, pow_succ]
    ring

theorem digitsVal_renderNat {w n : Nat} (h : n < 10 ^ w) :
    digitsVal (renderNat w n) = n := by
  unfold digitsVal
  rw [foldl_renderNat, Nat.zero_mul, Nat.zero_add, Nat.mod_eq_of_lt h]

theorem takeNat_renderNat {w n : Nat} (h : n < 10 ^ w) (rest : List Char) :
    takeNat w (renderNat w n ++ rest) = some (n, rest) := by
  have hlen : (renderNat w n).length = w := renderNat_length w n
  have htake : (renderNat w n ++ rest).take w = renderNat w n := List.take_left' hlen
  have hdrop : (renderNat w n ++ rest).drop w = rest := List.drop_left' hlen
  have hall : (renderNat w n).all Char.isDigit = true := by
    rw [List.all_eq_true]
    intro c hc
    exact isDigit_of_mem_renderNat w n c hc
  unfold takeNat
  rw [htake, hdrop, hlen, if_pos ⟨rfl, hall⟩, digitsVal_renderNat h]

theorem takeNat_renderNat_nil {w n : Nat} (h : n < 10 ^ w) :
    takeNat w (renderNat w n) = some (n, []) := by
  have := takeNat_renderNat h ([] : List Char)
  rwa [List.append_nil] at this

@[simp] theorem expectChar_cons (c : Char) (rest : List Char) :
    expectChar c (c :: rest) = some rest := by
  simp [expectChar]

/-- Round trip of the datetime model: parsing an ISO rendering recovers the value. -/
theorem fromisoformat_isoformat {d : Datetime} (hv : d.Valid) :
    Datetime.fromisoformat d.isoformat = some d := by
  obtain ⟨Y, Mo, Dy, H, Mi, S, U⟩ := d
  obtain ⟨h1, h2, h3, h4, h5, h6, h7, h8, h9, h10⟩ := hv
  simp only at h1 h2 h3 h4 h5 h6 h7 h8 h9 h10
  have hy : Y < 10 ^ 4 := by omega
  have hmo : Mo < 10 ^ 2 := by omega
  have hdy : Dy < 10 ^ 2 := by
    have : daysInMonth Y Mo ≤ 31 := by
      unfold daysInMonth; split <;> [split; split] <;> omega
    omega
  have hh : H < 10 ^ 2 := by omega
  have hmi : Mi < 10 ^ 2 := by omega
  have hs : S < 10 ^ 2 := by omega
  have hus : U < 10 ^ 6 := by omega
  have hval : Datetime.Valid ⟨Y, Mo, Dy, H, Mi, S, U⟩ :=
    ⟨h1, h2, h3, h4, h5, h6, h7, h8, h9, h10⟩
  unfold Datetime.fromisoformat Datetime.isoformat
  show fromisoChars (Datetime.isoChars ⟨Y, Mo, Dy, H, Mi, S, U⟩) = _
  unfold Datetime.isoChars fromisoChars
  simp only
  rw [takeNat_renderNat hy]
  simp only [Option.bind_eq_bind, Option.some_bind, expectChar_cons]
  rw [takeNat_renderNat hmo]
  simp only [Option.some_bind, expectChar_cons]
  rw [takeNat_renderNat hdy]
  simp only [Option.some_bind, expectChar_cons]
  rw [takeNat_renderNat hh]
  simp only [Option.some_bind, expectChar_cons]
  rw [takeNat_renderNat hmi]
  simp only [Option.some_bind, expectChar_cons]
  by_cases hz : U = 0
  · subst hz
    rw [if_pos rfl, takeNat_renderNat hs]
    simp only [Option.some_bind]
    rw [if_pos hval]
  · rw [if_neg hz, takeNat_renderNat hs]
    simp only [Option.some_bind, if_pos rfl]
    rw [takeNat_renderNat_nil hus]
    simp only [if_true, Option.some_bind]
    rw [if_pos hval]

theorem lookup_LOG_LEVELS_eq_none {level : String} (hl : level ∉ logLevels) :
    LOG_LEVELS.lookup level = none := by
  simp only [logLevels, List.mem_cons, List.not_mem_nil, or_false, not_or] at hl
  obtain ⟨n1, n2, n3, n4, n5⟩ := hl
  have b1 : (level == "DEBUG") = false := beq_eq_false_iff_ne.mpr n1
  have b2 : (level == "INFO") = false := beq_eq_false_iff_ne.mpr n2
  have b3 : (level == "WARNING") = false := beq_eq_false_iff_ne.mpr n3
  have b4 : (level == "ERROR") = false := beq_eq_false_iff_ne.mpr n4
  have b5 : (level == "CRITICAL") = false := beq_eq_false_iff_ne.mpr n5
  simp [LOG_LEVELS, List.lookup, b1, b2, b3, b4, b5]

theorem rankOr_threshold_nonneg (t : String) : 0 ≤ rankOr t 0 := by
  by_cases h : t ∈ logLevels
  · simp only [logLevels, List.mem_cons, List.not_mem_nil, or_false] at h
    rcases h with rfl | rfl | rfl | rfl | rfl <;> decide
  · unfold rankOr
    rw [lookup_LOG_LEVELS_eq_none h]
    simp

theorem mem_of_should_log {t l : String} (h : should_log t l = true) :
    l ∈ logLevels := by
  by_contra hl
  unfold should_log rankOr at h
  rw [lookup_LOG_LEVELS_eq_none hl] at h
  simp only [Option.getD_none, decide_eq_true_eq, ge_iff_le] at h
  have h0 := rankOr_threshold_nonneg t
  unfold rankOr at h0
  omega

theorem fanOut_fst (ws : List HandlerWrite) (e : LogEntry) :
    (fanOut ws e).1 = ws.map (fun _ => e) := by
  induction ws with
  | nil => rfl
  | cons w rest ih =>
    cases h : w e <;> simp [fanOut, h, ih]

/-- C1: for every `LogEntry` built from a valid datetime, a recognized level
name and any message, `LogEntry.from_dict (entry.to_dict)` yields an entry with
the same date, level and message (round trip over the `{date, level, message}`
record shape). -/
theorem C1_to_dict_from_dict_roundtrip (d : Datetime) (lv ms : String)
    (hd : d.Valid) (hl : lv ∈ logLevels) :
    LogEntry.from_dict (LogEntry.to_dict ⟨d, lv, ms⟩) = some ⟨d, lv, ms⟩ := by
  unfold LogEntry.to_dict LogEntry.from_dict
  simp only [List.lookup, show (("date" : String) == "date") = true by decide,
    show (("level" : String) == "date") = false by decide,
    show (("level" : String) == "level") = true by decide,
    show (("message" : String) == "date") = false by decide,
    show (("message" : String) == "level") = false by decide,
    show (("message" : String) == "message") = true by decide]
  rw [fromisoformat_isoformat hd]
  unfold LogEntry.mk?
  show (if lv ∈ logLevels then some (⟨d, lv, ms⟩ : LogEntry) else none) = _
  rw [if_pos hl]

/-- Witness for C1 at a concrete entry. -/
theorem C1_witness :
    Datetime.Valid ⟨2023, 5, 17, 12, 30, 45, 123456⟩ ∧ "INFO" ∈ logLevels ∧
    LogEntry.from_dict
        (LogEntry.to_dict ⟨⟨2023, 5, 17, 12, 30, 45, 123456⟩, "INFO", "hello world"⟩) =
      some ⟨⟨2023, 5, 17, 12, 30, 45, 123456⟩, "INFO", "hello world"⟩ :=
  ⟨by decide, by decide,
    C1_to_dict_from_dict_roundtrip _ _ _ (by decide) (by decide)⟩

/-- C2: with a recognized level and threshold, `log` constructs no entry and
invokes no handler if and only if the level's rank is below the threshold's
rank (ranks `DEBUG=0 < INFO=1 < WARNING=2 < ERROR=3 < CRITICAL=4`); moreover
with threshold `DEBUG` every recognized level passes the gate. -/
theorem C2_level_gate (threshold level : String)
    (ht : threshold ∈ logLevels) (hl : level ∈ logLevels) :
    (∀ (ws : List HandlerWrite) (message : String) (now : Datetime),
        ProfilLogger.log threshold ws level message now = Except.ok ⟨none, [], []⟩ ↔
          rankOr level (-1) < rankOr threshold 0) ∧
    should_log "DEBUG" level = true := by
  constructor
  · intro ws message now
    by_cases hsl : should_log threshold level = true
    · constructor
      · intro h0
        exfalso
        unfold ProfilLogger.log at h0
        rw [if_pos hsl] at h0
        unfold LogEntry.mk? at h0
        rw [if_pos hl] at h0
        simp at h0
      · intro h
        exfalso
        unfold should_log at hsl
        simp only [decide_eq_true_eq, ge_iff_le] at hsl
        omega
    · simp only [Bool.not_eq_true] at hsl
      have hrank : rankOr level (-1) < rankOr threshold 0 := by
        have h1 := hsl
        unfold should_log at h1
        simp only [decide_eq_false_iff_not, ge_iff_le, not_le] at h1
        exact h1
      constructor
      · intro _
        exact hrank
      · intro _
        unfold ProfilLogger.log
        rw [if_neg (by simp [hsl])]
  · simp only [logLevels, List.mem_cons, List.not_mem_nil, or_false] at hl
    rcases hl with rfl | rfl | rfl | rfl | rfl <;> decide

/-- Witness for C2 at concrete levels: threshold `WARNING` suppresses `INFO`. -/
theorem C2_witness :
    ProfilLogger.log "WARNING" [] "INFO" "m" ⟨2023, 1, 1, 0, 0, 0, 0⟩ =
        Except.ok ⟨none, [], []⟩ ∧
    should_log "DEBUG" "INFO" = true :=
  ⟨(((C2_level_gate "WARNING" "INFO" (by decide) (by decide)).1
        [] "m" ⟨2023, 1, 1, 0, 0, 0, 0⟩).mpr (by decide)),
    (C2_level_gate "WARNING" "INFO" (by decide) (by decide)).2⟩

/-- C3: whenever the level gate passes, every configured handler is invoked
with the same `LogEntry`, in configuration order, and handler exceptions are
caught (the call returns normally) without stopping later handlers. -/
theorem C3_fanout_best_effort (threshold level : String) (ws : List HandlerWrite)
    (message : String) (now : Datetime)
    (hgate : should_log threshold level = true) :
    ∃ (e : LogEntry) (caught : List String),
      ProfilLogger.log threshold ws level message now =
        Except.ok ⟨some e, ws.map (fun _ => e), caught⟩ := by
  have hl := mem_of_should_log hgate
  refine ⟨⟨now, level, message⟩, (fanOut ws ⟨now, level, message⟩).2, ?_⟩
  unfold ProfilLogger.log
  rw [if_pos hgate]
  unfold LogEntry.mk?
  rw [if_pos hl]
  show (Except.ok ⟨some ⟨now, level, message⟩, (fanOut ws ⟨now, level, message⟩).1,
      (fanOut ws ⟨now, level, message⟩).2⟩ : Except String LogOutcome) = _
  rw [fanOut_fst]

/-- Witness for C3: a first handler that raises does not stop the second. -/
theorem C3_witness :
    should_log "INFO" "ERROR" = true ∧
    ∃ (e : LogEntry) (caught : List String),
      ProfilLogger.log "INFO"
          ([fun _ => Except.error "disk full", fun _ => Except.ok ()] : List HandlerWrite)
          "ERROR" "boom" ⟨2023, 1, 1, 0, 0, 0, 0⟩ =
        Except.ok ⟨some e,
          ([fun _ => Except.error "disk full", fun _ => Except.ok ()] :
              List HandlerWrite).map (fun _ => e),
          caught⟩ :=
  ⟨by decide,
    C3_fanout_best_effort "INFO" "ERROR"
      ([fun _ => Except.error "disk full", fun _ => Except.ok ()] : List HandlerWrite)
      "boom" ⟨2023, 1, 1, 0, 0, 0, 0⟩ (by decide)⟩

/-- C9: a call with an unrecognized level name is a silent no-op for every
threshold: it returns normally, constructs no `LogEntry` and invokes no
handler, because the unrecognized level gets default rank `-1`. -/
theorem C9_unrecognized_level_noop (level : String) (hl : level ∉ logLevels) :
    ∀ (threshold : String) (ws : List HandlerWrite) (message : String) (now : Datetime),
      ProfilLogger.log threshold ws level message now = Except.ok ⟨none, [], []⟩ := by
  intro threshold ws message now
  have hsl : should_log threshold level = false := by
    unfold should_log rankOr
    rw [lookup_LOG_LEVELS_eq_none hl]
    simp only [Option.getD_none, decide_eq_false_iff_not, ge_iff_le, not_le]
    have h0 := rankOr_threshold_nonneg threshold
    unfold rankOr at h0
    omega
  unfold ProfilLogger.log
  rw [if_neg (by simp [hsl])]

/-- Witness for C9 at the unrecognized level `TRACE`. -/
theorem C9_witness :
    "TRACE" ∉ logLevels ∧
    ProfilLogger.log "DEBUG" [fun _ => Except.ok ()] "TRACE" "x"
        ⟨2023, 1, 1, 0, 0, 0, 0⟩ =
      Except.ok ⟨none, [], []⟩ :=
  ⟨by decide,
    C9_unrecognized_level_noop "TRACE" (by decide) "DEBUG" [fun _ => Except.ok ()]
      "x" ⟨2023, 1, 1, 0, 0, 0, 0⟩⟩

theorem lookup_map_isSome {α : Type} (f : String → α) (k : String) :
    ∀ keys : List String, k ∈ keys →
      ((keys.map (fun lv => (lv, f lv))).lookup k).isSome = true := by
  intro keys hk
  induction keys with
  | nil => simp at hk
  | cons a rest ih =>
    simp only [List.map_cons, List.lookup]
    by_cases h : k = a
    · rw [show (k == a) = true from beq_iff_eq.mpr h]
      rfl
    · rw [show (k == a) = false from beq_eq_false_iff_ne.mpr h]
      exact ih (by
        rcases List.mem_cons.mp hk with h1 | h1
        · exact absurd h1 h
        · exact h1)

theorem addToGroups_map (keys : List String) (f : String → List LogEntry)
    (e : LogEntry) (he : e.level ∈ keys) :
    addToGroups (keys.map (fun lv => (lv, f lv))) e =
      keys.map (fun lv => (lv, f lv ++ if lv = e.level then [e] else [])) := by
  unfold addToGroups
  rw [if_pos (lookup_map_isSome f e.level keys he), List.map_map]
  congr 1
  funext lv
  by_cases h : lv = e.level <;> simp [Function.comp, h]

theorem foldl_addToGroups :
    ∀ (logs : List LogEntry) (f : String → List LogEntry),
      (∀ e ∈ logs, e.level ∈ logLevels) →
      logs.foldl addToGroups (logLevels.map (fun lv => (lv, f lv))) =
        logLevels.map (fun lv => (lv, f lv ++ logs.filter (fun x => x.level == lv)))
  | [], f, _ => by simp
  | e :: rest, f, h => by
    rw [List.foldl_cons, addToGroups_map _ f e (h e (List.mem_cons_self _ _)),
      foldl_addToGroups rest _ (fun x hx => h x (List.mem_cons_of_mem _ hx))]
    congr 1
    funext lv
    rw [List.filter_cons]
    by_cases hlv : e.level = lv
    · rw [if_pos hlv.symm, if_pos (show (e.level == lv) = true by simp [hlv])]
      simp [List.append_assoc]
    · rw [if_neg (show ¬lv = e.level from fun hc => hlv hc.symm),
        if_neg (show ¬(e.level == lv) = true by simp [hlv])]
      simp

theorem sum_map_add_split {α : Type} (l : List α) (f g : α → Nat) :
    (l.map (fun x => f x + g x)).sum = (l.map f).sum + (l.map g).sum := by
  induction l with
  | nil => rfl
  | cons a t ih =>
    simp only [List.map_cons, List.sum_cons, ih]
    omega

theorem sum_map_indicator (k : String) :
    ∀ keys : List String, keys.Nodup → k ∈ keys →
      (keys.map (fun lv => if k = lv then 1 else 0)).sum = 1
  | [], _, hk => by simp at hk
  | a :: rest, hnd, hk => by
    rw [List.map_cons, List.sum_cons]
    rcases List.mem_cons.mp hk with rfl | hk2
    · rw [if_pos rfl]
      have ha : k ∉ rest := (List.nodup_cons.mp hnd).1
      have hz : (rest.map (fun lv => if k = lv then 1 else 0)).sum = 0 := by
        apply List.sum_eq_zero
        intro x hx
        obtain ⟨lv, hlv, rfl⟩ := List.mem_map.mp hx
        rw [if_neg (by rintro rfl; exact ha hlv)]
      omega
    · have hne : k ≠ a := by rintro rfl; exact (List.nodup_cons.mp hnd).1 hk2
      rw [if_neg hne, sum_map_indicator k rest (List.nodup_cons.mp hnd).2 hk2]

theorem sum_filter_lengths :
    ∀ logs : List LogEntry, (∀ e ∈ logs, e.level ∈ logLevels) →
      (logLevels.map (fun lv => (logs.filter (fun x => x.level == lv)).length)).sum =
        logs.length
  | [], _ => by simp
  | e :: rest, h => by
    have h1 := sum_filter_lengths rest (fun x hx => h x (List.mem_cons_of_mem _ hx))
    have he := h e (List.mem_cons_self _ _)
    have hmap : logLevels.map
          (fun lv => (List.filter (fun x => x.level == lv) (e :: rest)).length) =
        logLevels.map (fun lv =>
          (if e.level = lv then 1 else 0) +
            (List.filter (fun x => x.level == lv) rest).length) := by
      congr 1
      funext lv
      rw [List.filter_cons]
      by_cases hlv : e.level = lv
      · rw [if_pos (show (e.level == lv) = true by simp [hlv]), if_pos hlv]
        simp only [List.length_cons]
        omega
      · rw [if_neg (show ¬(e.level == lv) = true by simp [hlv]), if_neg hlv]
        simp
    rw [hmap, sum_map_add_split, sum_map_indicator e.level logLevels (by decide) he, h1]
    simp only [List.length_cons]
    omega

/-- C4: `groupby_level` on retrieved entries yields a dict keyed by exactly the
five recognized level names (a level with no matches keeps an empty bucket),
each entry lands only in the bucket of its own level (buckets are the filters
of the input), and the bucket sizes sum to the input size. -/
theorem C4_groupby_level_partition (logs : List LogEntry)
    (h : ∀ e ∈ logs, e.level ∈ logLevels) :
    (groupby_level logs).map Prod.fst = logLevels ∧
    (∀ lv group, (lv, group) ∈ groupby_level logs →
      group = logs.filter (fun x => x.level == lv)) ∧
    ((groupby_level logs).map (fun p => p.2.length)).sum = logs.length := by
  have hmain : groupby_level logs =
      logLevels.map (fun lv => (lv, logs.filter (fun x => x.level == lv))) := by
    unfold groupby_level
    have hfold := foldl_addToGroups logs (fun _ => []) h
    simpa using hfold
  refine ⟨?_, ?_, ?_⟩
  · rw [hmain, List.map_map]
    rfl
  · intro lv group hg
    rw [hmain] at hg
    obtain ⟨x, hx, heq⟩ := List.mem_map.mp hg
    obtain ⟨rfl, rfl⟩ := Prod.mk.injEq .. |>.mp heq
    rfl
  · rw [hmain, List.map_map]
    exact sum_filter_lengths logs h

/-- Witness for C4 at a concrete retrieved set with two levels present. -/
theorem C4_witness :
    (groupby_level
        [⟨⟨2023, 1, 1, 0, 0, 0, 0⟩, "INFO", "x"⟩,
         ⟨⟨2023, 1, 2, 0, 0, 0, 0⟩, "ERROR", "y"⟩,
         ⟨⟨2023, 1, 3, 0, 0, 0, 0⟩, "INFO", "z"⟩]).map Prod.fst = logLevels ∧
    ((groupby_level
        [⟨⟨2023, 1, 1, 0, 0, 0, 0⟩, "INFO", "x"⟩,
         ⟨⟨2023, 1, 2, 0, 0, 0, 0⟩, "ERROR", "y"⟩,
         ⟨⟨2023, 1, 3, 0, 0, 0, 0⟩, "INFO", "z"⟩]).map (fun p => p.2.length)).sum = 3 :=
  ⟨(C4_groupby_level_partition _ (by decide)).1,
    (C4_groupby_level_partition _ (by decide)).2.2⟩

theorem lexLe_refl : ∀ xs : List Nat, lexLe xs xs = true
  | [] => rfl
  | x :: xs => by simp [lexLe, lexLe_refl xs]

theorem lexLe_total : ∀ xs ys : List Nat, (lexLe xs ys || lexLe ys xs) = true
  | [], ys => by simp [lexLe]
  | x :: xs, [] => by simp [lexLe]
  | x :: xs, y :: ys => by
    simp only [lexLe]
    by_cases h1 : x < y
    · simp [h1]
    · by_cases h2 : y < x
      · simp [h1, h2]
      · simp [h1, h2, lexLe_total xs ys]

theorem lexLe_trans : ∀ xs ys zs : List Nat,
    lexLe xs ys = true → lexLe ys zs = true → lexLe xs zs = true
  | [], ys, zs => by intro _ _; rfl
  | x :: xs, [], zs => by intro h _; simp [lexLe] at h
  | x :: xs, y :: ys, [] => by intro _ h; simp [lexLe] at h
  | x :: xs, y :: ys, z :: zs => by
    intro h1 h2
    simp only [lexLe] at h1 h2 ⊢
    by_cases hxy : x < y
    · by_cases hyz : y < z
      · simp [Nat.lt_trans hxy hyz]
      · by_cases hzy : z < y
        · rw [if_neg hyz, if_pos hzy] at h2
          simp at h2
        · have hyz2 : y = z := by omega
          subst hyz2
          simp [hxy]
    · by_cases hyx : y < x
      · rw [if_neg hxy, if_pos hyx] at h1
        simp at h1
      · have hxe : x = y := by omega
        subst hxe
        rw [if_neg hxy, if_neg hyx] at h1
        by_cases hyz : x < z
        · simp [hyz]
        · by_cases hzy : z < x
          · rw [if_neg hyz, if_pos hzy] at h2
            simp at h2
          · rw [if_neg hyz, if_neg hzy] at h2 ⊢
            exact lexLe_trans xs ys zs h1 h2

theorem mergeSort_date_stable (logs : List LogEntry) (le : LogEntry → LogEntry → Bool)
    (htrans : ∀ a b c, le a b → le b c → le a c)
    (htotal : ∀ a b, (le a b || le b a) = true)
    (hties : ∀ a b : LogEntry, a.date = b.date → le a b = true) (d : Datetime) :
    (logs.mergeSort le).filter (fun e => e.date == d) =
      logs.filter (fun e => e.date == d) := by
  have hpw : (logs.filter (fun e => e.date == d)).Pairwise (fun a b => le a b) := by
    apply List.pairwise_of_forall_mem_list
    intro a ha b hb
    have hda : a.date = d := by simpa using (List.mem_filter.mp ha).2
    have hdb : b.date = d := by simpa using (List.mem_filter.mp hb).2
    exact hties a b (hda.trans hdb.symm)
  have hsub : List.Sublist (logs.filter (fun e => e.date == d)) (logs.mergeSort le) :=
    List.sublist_mergeSort htrans htotal hpw (List.filter_sublist logs)
  have hsub2 : List.Sublist (logs.filter (fun e => e.date == d))
      ((logs.mergeSort le).filter (fun e => e.date == d)) := by
    have := hsub.filter (fun e => e.date == d)
    simpa using this
  have hperm : ((logs.mergeSort le).filter (fun e => e.date == d)).length =
      (logs.filter (fun e => e.date == d)).length :=
    ((logs.mergeSort_perm le).filter (fun e => e.date == d)).length_eq
  exact (hsub2.eq_of_length hperm.symm).symm

/-- C6: for both directions, `sort_by_date` permutes the input, orders it by
timestamp, and is stable: entries sharing a timestamp keep their relative input
order (the equal-timestamp subsequence is unchanged). -/
theorem C6_sort_by_date_stable (logs : List LogEntry) (ascending : Bool) :
    (sort_by_date ascending logs).Perm logs ∧
    (sort_by_date ascending logs).Pairwise
      (fun a b => (if ascending then Datetime.le a.date b.date
        else Datetime.le b.date a.date) = true) ∧
    (∀ d : Datetime,
      (sort_by_date ascending logs).filter (fun e => e.date == d) =
        logs.filter (fun e => e.date == d)) := by
  have htr : ∀ a b c : LogEntry, Datetime.le a.date b.date → Datetime.le b.date c.date →
      Datetime.le a.date c.date := by
    intro a b c h1 h2
    exact lexLe_trans _ _ _ h1 h2
  have hto : ∀ a b : LogEntry,
      (Datetime.le a.date b.date || Datetime.le b.date a.date) = true := by
    intro a b
    exact lexLe_total _ _
  have hti : ∀ a b : LogEntry, a.date = b.date → Datetime.le a.date b.date = true := by
    intro a b h
    rw [h]
    exact lexLe_refl _
  cases ascending
  · simp only [sort_by_date, if_neg (by simp : ¬(false = true))]
    refine ⟨logs.mergeSort_perm _, ?_, ?_⟩
    · exact List.sorted_mergeSort (fun a b c hab hbc => htr c b a hbc hab)
        (fun a b => by rw [Bool.or_comm]; exact hto a b) logs
    · intro d
      exact mergeSort_date_stable logs _ (fun a b c hab hbc => htr c b a hbc hab)
        (fun a b => by rw [Bool.or_comm]; exact hto a b)
        (fun a b h => hti b a h.symm) d
  · simp only [sort_by_date, if_pos rfl]
    refine ⟨logs.mergeSort_perm _, ?_, ?_⟩
    · exact List.sorted_mergeSort htr hto logs
    · intro d
      exact mergeSort_date_stable logs _ htr hto hti d

/-- C5: constructing `SQLLiteHandler` with a table name outside the fixed
allow-list raises the configuration `ValueError` before any filesystem or
database I/O (empty I/O trace); an allow-listed name is accepted and only then
the bootstrapping I/O runs. -/
theorem C5_table_name_allowlist (db_path table_name : String) :
    (table_name ∉ ALLOWED_TABLE_NAMES →
      SQLLiteHandler.init db_path table_name =
        ([], Except.error
          ("Table name is not allowed for security reasons: " ++ table_name))) ∧
    (table_name ∈ ALLOWED_TABLE_NAMES →
      SQLLiteHandler.init db_path table_name =
        (["makedirs", "create_table_if_not_exists"],
          Except.ok ⟨db_path, table_name⟩)) := by
  constructor
  · intro h
    unfold SQLLiteHandler.init
    rw [if_neg h]
  · intro h
    unfold SQLLiteHandler.init
    rw [if_pos h]

/-- Witness for C5: `users` is rejected with no I/O; `logs` is accepted. -/
theorem C5_witness :
    SQLLiteHandler.init "app.db" "users" =
      ([], Except.error
        ("Table name is not allowed for security reasons: " ++ "users")) ∧
    SQLLiteHandler.init "app.db" "logs" =
      (["makedirs", "create_table_if_not_exists"], Except.ok ⟨"app.db", "logs"⟩) :=
  ⟨(C5_table_name_allowlist "app.db" "users").1 (by decide),
    (C5_table_name_allowlist "app.db" "logs").2 (by decide)⟩

/-- C8: the code diverges from the claim. One record with an unparseable date
makes the reader catch the `ValueError` raised inside the whole conversion
comprehension and fall through to the empty result, discarding the well-formed
records instead of skipping only the bad one. At the failing input the file
handler yields three records (two of them well-formed and convertible, as the
third conjunct shows), yet the reader returns `[]`. -/
theorem C8_bad_date_discards_all :
    retrieve_all_logs_file
        ["[2023-01-01T00:00:00] INFO: alpha", "[bad] INFO: beta",
         "[2023-01-02T00:00:00] INFO: gamma"] =
      [[("date", "2023-01-01T00:00:00"), ("level", "INFO"), ("message", "alpha")],
       [("date", "bad"), ("level", "INFO"), ("message", "beta")],
       [("date", "2023-01-02T00:00:00"), ("level", "INFO"), ("message", "gamma")]] ∧
    reader_get_all_logs_file
        ["[2023-01-01T00:00:00] INFO: alpha", "[bad] INFO: beta",
         "[2023-01-02T00:00:00] INFO: gamma"] = [] ∧
    reader_get_all_logs_file
        ["[2023-01-01T00:00:00] INFO: alpha", "[2023-01-02T00:00:00] INFO: gamma"] =
      [⟨⟨2023, 1, 1, 0, 0, 0, 0⟩, "INFO", "alpha"⟩,
       ⟨⟨2023, 1, 2, 0, 0, 0, 0⟩, "INFO", "gamma"⟩] := by
  refine ⟨?_, ?_, ?_⟩ <;> rfl

theorem splitFirst_not_mem (sep : Char) :
    ∀ a : List Char, sep ∉ a → splitFirst sep a = none
  | [], _ => rfl
  | c :: rest, h => by
    unfold splitFirst
    rw [if_neg (by rintro rfl; exact h (List.mem_cons_self _ _)),
      splitFirst_not_mem sep rest (fun hm => h (List.mem_cons_of_mem _ hm))]

theorem splitFirst_append (sep : Char) :
    ∀ a : List Char, sep ∉ a → ∀ b, splitFirst sep (a ++ sep :: b) = some (a, b)
  | [], _, b => by simp [splitFirst]
  | c :: rest, h, b => by
    simp only [List.cons_append]
    unfold splitFirst
    rw [if_neg (by rintro rfl; exact h (List.mem_cons_self _ _)),
      splitFirst_append sep rest (fun hm => h (List.mem_cons_of_mem _ hm)) b]

theorem space_not_mem_bracket {ts : List Char} (hts : ' ' ∉ ts) :
    ' ' ∉ '[' :: (ts ++ [']']) := by
  intro hm
  rcases List.mem_cons.mp hm with h | h
  · exact absurd h (by decide)
  · rcases List.mem_append.mp h with h | h
    · exact hts h
    · exact absurd (List.mem_singleton.mp h) (by decide)

theorem space_not_mem_colon {lv : List Char} (hlv : ' ' ∉ lv) :
    ' ' ∉ lv ++ [':'] := by
  intro hm
  rcases List.mem_append.mp hm with h | h
  · exact hlv h
  · exact absurd (List.mem_singleton.mp h) (by decide)

theorem pySplit2_three (ts lv ms : List Char) (hts : ' ' ∉ ts) (hlv : ' ' ∉ lv) :
    pySplit2 ('[' :: (ts ++ ']' :: ' ' :: (lv ++ ':' :: ' ' :: ms))) =
      ['[' :: (ts ++ [']']), lv ++ [':'], ms] := by
  have h1 : ('[' :: (ts ++ ']' :: ' ' :: (lv ++ ':' :: ' ' :: ms))) =
      ('[' :: (ts ++ [']'])) ++ ' ' :: ((lv ++ [':']) ++ ' ' :: ms) := by
    simp
  rw [h1]
  have s1 := splitFirst_append ' ' ('[' :: (ts ++ [']'])) (space_not_mem_bracket hts)
  have s2 := splitFirst_append ' ' (lv ++ [':']) (space_not_mem_colon hlv)
  simp only [pySplit2, s1, s2]

theorem pySplit2_two (ts lv2 : List Char) (hts : ' ' ∉ ts) (hlv : ' ' ∉ lv2) :
    pySplit2 ('[' :: (ts ++ ']' :: ' ' :: lv2)) = ['[' :: (ts ++ [']']), lv2] := by
  have h1 : ('[' :: (ts ++ ']' :: ' ' :: lv2)) =
      ('[' :: (ts ++ [']'])) ++ ' ' :: lv2 := by
    simp
  rw [h1]
  have s1 := splitFirst_append ' ' ('[' :: (ts ++ [']'])) (space_not_mem_bracket hts)
  have s2 := splitFirst_not_mem ' ' lv2 hlv
  simp only [pySplit2, s1, s2]

theorem retrieve_cons_skip (line : String) (rest : List String)
    (h : (pySplit2 (pyStrip line.data)).length ≠ 3) :
    retrieve_all_logs_file (line :: rest) = retrieve_all_logs_file rest := by
  rcases hp : pySplit2 (pyStrip line.data) with _ | ⟨a, _ | ⟨b, _ | ⟨c, _ | ⟨d, tail⟩⟩⟩⟩
  · simp only [retrieve_all_logs_file, hp]
  · simp only [retrieve_all_logs_file, hp]
  · simp only [retrieve_all_logs_file, hp]
  · exact absurd (by rw [hp]; rfl) h
  · simp only [retrieve_all_logs_file, hp]

theorem retrieve_append : ∀ l1 l2 : List String,
    retrieve_all_logs_file (l1 ++ l2) =
      retrieve_all_logs_file l1 ++ retrieve_all_logs_file l2
  | [], l2 => rfl
  | line :: rest, l2 => by
    show retrieve_all_logs_file (line :: (rest ++ l2)) = _
    rcases hp : pySplit2 (pyStrip line.data) with _ | ⟨a, _ | ⟨b, _ | ⟨c, _ | ⟨d, tail⟩⟩⟩⟩ <;>
      simp only [retrieve_all_logs_file, hp] <;>
      simp [retrieve_append rest l2]

theorem retrieve_cons_of_strip (line : String) (rest : List String)
    (ts lv ms : List Char) (hts : ' ' ∉ ts) (hlv : ' ' ∉ lv)
    (hstrip : pyStrip line.data =
      '[' :: (ts ++ ']' :: ' ' :: (lv ++ ':' :: ' ' :: ms))) :
    retrieve_all_logs_file (line :: rest) =
      [("date", ⟨ts⟩), ("level", ⟨lv⟩), ("message", ⟨ms⟩)] ::
        retrieve_all_logs_file rest := by
  simp only [retrieve_all_logs_file]
  rw [hstrip, pySplit2_three ts lv ms hts hlv]
  simp [List.dropLast_concat]

/-- C7: a line that does not split on its first two space characters into
exactly three parts is silently skipped, leaving the surrounding lines intact,
and a well-formed line `[<ts>] <LV>: <msg>` is returned as a record with the
bracket and colon decoration stripped from its first two parts. -/
theorem C7_malformed_skipped :
    (∀ (pre post : List String) (bad : String),
      (pySplit2 (pyStrip bad.data)).length ≠ 3 →
      retrieve_all_logs_file (pre ++ bad :: post) =
        retrieve_all_logs_file pre ++ retrieve_all_logs_file post) ∧
    (∀ ts lv ms : List Char, ' ' ∉ ts → ' ' ∉ lv →
      pyStrip ('[' :: (ts ++ ']' :: ' ' :: (lv ++ ':' :: ' ' :: ms))) =
        '[' :: (ts ++ ']' :: ' ' :: (lv ++ ':' :: ' ' :: ms)) →
      retrieve_all_logs_file
          [⟨'[' :: (ts ++ ']' :: ' ' :: (lv ++ ':' :: ' ' :: ms))⟩] =
        [[("date", ⟨ts⟩), ("level", ⟨lv⟩), ("message", ⟨ms⟩)]]) := by
  constructor
  · intro pre post bad hbad
    rw [retrieve_append, retrieve_cons_skip bad post hbad]
  · intro ts lv ms hts hlv hstrip
    exact retrieve_cons_of_strip _ [] ts lv ms hts hlv hstrip

/-- Witness for C7: a structureless line is skipped around a well-formed one,
and a concrete well-formed line is reconstructed without its decoration. -/
theorem C7_witness :
    retrieve_all_logs_file
        (["[2023-01-01T00:00:00] INFO: alpha"] ++ "no-structure-here" :: []) =
      retrieve_all_logs_file ["[2023-01-01T00:00:00] INFO: alpha"] ++
        retrieve_all_logs_file [] ∧
    retrieve_all_logs_file
        [⟨'[' :: (['t', 's'] ++ ']' :: ' ' ::
          (['L', 'V'] ++ ':' :: ' ' :: ['m', ' ', 'g']))⟩] =
      [[("date", ⟨['t', 's']⟩), ("level", ⟨['L', 'V']⟩),
        ("message", ⟨['m', ' ', 'g']⟩)]] :=
  ⟨C7_malformed_skipped.1 ["[2023-01-01T00:00:00] INFO: alpha"] [] "no-structure-here"
      (by decide),
    C7_malformed_skipped.2 ['t', 's'] ['L', 'V'] ['m', ' ', 'g']
      (by decide) (by decide) (by decide)⟩

theorem isPyWS_digitChar : ∀ d, d < 10 → isPyWS (digitChar d) = false := by decide

theorem mem_renderNat (w : Nat) :
    ∀ n c, c ∈ renderNat w n → ∃ d, d < 10 ∧ c = digitChar d := by
  induction w with
  | zero => intro n c hc; simp [renderNat] at hc
  | succ w ih =>
    intro n c hc
    simp only [renderNat, List.mem_append, List.mem_singleton] at hc
    rcases hc with hc | rfl
    · exact ih _ _ hc
    · exact ⟨n % 10, Nat.mod_lt _ (by omega), rfl⟩

theorem isoChars_no_ws (d : Datetime) : ∀ c ∈ d.isoChars, isPyWS c = false := by
  intro c hc
  unfold Datetime.isoChars at hc
  simp only [List.mem_append, List.mem_cons] at hc
  rcases hc with h | rfl | h | rfl | h | rfl | h | rfl | h | rfl | h | htail
  · obtain ⟨d, hd, rfl⟩ := mem_renderNat 4 _ c h
    exact isPyWS_digitChar d hd
  · decide
  · obtain ⟨d, hd, rfl⟩ := mem_renderNat 2 _ c h
    exact isPyWS_digitChar d hd
  · decide
  · obtain ⟨d, hd, rfl⟩ := mem_renderNat 2 _ c h
    exact isPyWS_digitChar d hd
  · decide
  · obtain ⟨d, hd, rfl⟩ := mem_renderNat 2 _ c h
    exact isPyWS_digitChar d hd
  · decide
  · obtain ⟨d, hd, rfl⟩ := mem_renderNat 2 _ c h
    exact isPyWS_digitChar d hd
  · decide
  · obtain ⟨d, hd, rfl⟩ := mem_renderNat 2 _ c h
    exact isPyWS_digitChar d hd
  · by_cases hz : d.microsecond = 0
    · rw [if_pos hz] at htail
      simp at htail
    · rw [if_neg hz] at htail
      rcases List.mem_cons.mp htail with rfl | h
      · decide
      · obtain ⟨d, hd, rfl⟩ := mem_renderNat 6 _ c h
        exact isPyWS_digitChar d hd

theorem space_not_mem_isoChars (d : Datetime) : ' ' ∉ d.isoChars := by
  intro hm
  exact absurd (isoChars_no_ws d ' ' hm) (by decide)

theorem level_chars (lv : String) (h : lv ∈ logLevels) :
    ' ' ∉ lv.data ∧ ∀ c ∈ lv.data, isPyWS c = false := by
  simp only [logLevels, List.mem_cons, List.not_mem_nil, or_false] at h
  rcases h with rfl | rfl | rfl | rfl | rfl <;> exact ⟨by decide, by decide⟩

theorem pyStrip_bracket (mid : List Char) (c : Char) (hc : isPyWS c = false)
    (w : List Char) (hw : ∀ x ∈ w, isPyWS x = true) :
    pyStrip ('[' :: (mid ++ c :: w)) = '[' :: (mid ++ [c]) := by
  unfold pyStrip
  rw [List.dropWhile_cons, if_neg (by decide)]
  have h2 : ('[' :: (mid ++ c :: w)).reverse =
      w.reverse ++ c :: (mid.reverse ++ ['[']) := by
    simp
  rw [h2, List.dropWhile_append_of_pos (fun a ha => hw a (List.mem_reverse.mp ha)),
    List.dropWhile_cons, if_neg (by simp [hc])]
  simp

/-- C10 (amended): the plain-text round trip writes a line for every entry but
drops each empty-message entry at retrieval; entries whose messages are
nonempty, contain no line break, and do not end in whitespace come back as
their canonical records. -/
theorem C10_empty_message_dropped (es : List LogEntry)
    (h : ∀ e ∈ es, e.level ∈ logLevels ∧
      (e.message = "" ∨ RoundTrippable e.message)) :
    retrieve_all_logs_file (es.map FileHandler.writeLine) =
      (es.filter (fun e => e.message != "")).map LogEntry.to_dict := by
  induction es with
  | nil => rfl
  | cons e rest ih =>
    have hlvl := (h e (List.mem_cons_self _ _)).1
    have hmsg := (h e (List.mem_cons_self _ _)).2
    have ih2 := ih (fun x hx => h x (List.mem_cons_of_mem _ hx))
    have hlc := level_chars e.level hlvl
    rw [List.map_cons]
    rcases hmsg with hempty | hrt
    · have hdata : e.message.data = [] := by rw [hempty]
      have hline : (FileHandler.writeLine e).data =
          '[' :: ((e.date.isoChars ++ ']' :: ' ' :: e.level.data) ++ ':' :: [' ', '\n']) := by
        show ('[' :: (e.date.isoChars ++ ']' :: ' ' :: (e.level.data ++ ':' :: ' ' ::
          (e.message.data ++ ['\n'])))) = _
        rw [hdata]
        simp
      have hstrip : pyStrip (FileHandler.writeLine e).data =
          '[' :: (e.date.isoChars ++ ']' :: ' ' :: (e.level.data ++ [':'])) := by
        rw [hline, pyStrip_bracket _ ':' (by decide) _ (by decide)]
        simp
      rw [retrieve_cons_skip _ _ (by
        rw [hstrip,
          pySplit2_two _ _ (space_not_mem_isoChars e.date) (space_not_mem_colon hlc.1)]
        simp)]
      rw [List.filter_cons, if_neg (by simp [hempty])]
      exact ih2
    · obtain ⟨hne, hnl, hlast⟩ := hrt
      rcases List.eq_nil_or_concat e.message.data with hnil | ⟨front, last, hconcat⟩
      · exact absurd hnil hne
      have hlastc : isPyWS last = false := by
        rwa [hconcat, List.concat_eq_append, List.getLastD_concat] at hlast
      have hline : (FileHandler.writeLine e).data =
          '[' :: ((e.date.isoChars ++ ']' :: ' ' :: (e.level.data ++ ':' :: ' ' :: front))
            ++ last :: ['\n']) := by
        show ('[' :: (e.date.isoChars ++ ']' :: ' ' :: (e.level.data ++ ':' :: ' ' ::
          (e.message.data ++ ['\n'])))) = _
        rw [hconcat, List.concat_eq_append]
        simp
      have hstrip : pyStrip (FileHandler.writeLine e).data =
          '[' :: (e.date.isoChars ++ ']' :: ' ' ::
            (e.level.data ++ ':' :: ' ' :: e.message.data)) := by
        rw [hline, pyStrip_bracket _ last hlastc _ (by decide)]
        rw [hconcat, List.concat_eq_append]
        simp
      rw [retrieve_cons_of_strip _ _ _ _ _ (space_not_mem_isoChars e.date) hlc.1 hstrip]
      rw [List.filter_cons,
        if_pos (bne_iff_ne.mpr (fun hEq => hne (by rw [hEq]))), List.map_cons, ih2]
      rfl

/-- C10 counterexample: a single-space message is nonempty and contains no
newline character, yet its written line is dropped by retrieval, refuting the
claim that all nonempty newline-free messages survive the round trip. -/
theorem C10_counterexample :
    (⟨⟨2023, 1, 1, 0, 0, 0, 0⟩, "INFO", " "⟩ : LogEntry).message ≠ "" ∧
    (∀ c ∈ (⟨⟨2023, 1, 1, 0, 0, 0, 0⟩, "INFO", " "⟩ : LogEntry).message.data,
      c ≠ '\n') ∧
    retrieve_all_logs_file
        [FileHandler.writeLine ⟨⟨2023, 1, 1, 0, 0, 0, 0⟩, "INFO", " "⟩] = [] :=
  ⟨by decide, by decide, by rfl⟩

/-- Witness for C10 at a concrete write/retrieve round trip. -/
theorem C10_witness :
    retrieve_all_logs_file
        ([⟨⟨2023, 1, 1, 0, 0, 0, 0⟩, "INFO", ""⟩,
          ⟨⟨2023, 1, 2, 3, 4, 5, 0⟩, "ERROR", "disk failed"⟩].map
            FileHandler.writeLine) =
      ([(⟨⟨2023, 1, 1, 0, 0, 0, 0⟩, "INFO", ""⟩ : LogEntry),
        ⟨⟨2023, 1, 2, 3, 4, 5, 0⟩, "ERROR", "disk failed"⟩].filter
          (fun e => e.message != "")).map LogEntry.to_dict :=
  C10_empty_message_dropped _ (by decide)

end Spec2Proof
